import Mathlib

/-!
# Verification of the smart-job-portal matching and search core

This file gives a shallow embedding, in Lean 4, of the candidate/job
matching engine and search helpers of the job-portal backend
(`backend/src/utils/matchAlgorithm.js`, `backend/src/utils/searchUtils.js`,
`backend/src/controllers/job.controller.js`,
`backend/src/controllers/recommendation.controller.js`,
`backend/src/controllers/resume.controller.js`,
`backend/src/validators/job.validator.js`), together with theorems checking
the behavioural claims of the design specification against that embedding.

Modelling conventions:
* JavaScript strings are modelled by Lean strings; the case conversions
  `toLowerCase` / `toUpperCase` are modelled by the basic-latin conversions
  `Char.toLower` / `Char.toUpper` applied characterwise (the skill and text
  data this code manipulates is ASCII).
* JavaScript arrays are Lean lists; a value that may be `null`/`undefined`
  is modelled with `Option`.
* Fields that a JavaScript object literal may omit (such as `bonusPoints`)
  are `Option` fields, `none` meaning the field is absent.
* `Math.round((m / n) * 100)` on the small integer counts that occur here
  is modelled as exact rational rounding, half away from zero:
  `(200 * m + n) / (2 * n)` in natural-number arithmetic.
* `Array.prototype.sort` is required by the ECMAScript specification to be
  stable; it is modelled by a stable insertion sort.
-/

namespace JobPortal

/-- Characterwise basic-latin lower-casing, modelling `s.toLowerCase()`. -/
def lowerStr (s : String) : String :=
  ⟨s.data.map Char.toLower⟩

/-!
## matchAlgorithm.js
-/

/-- The fixed alias-group table of `isSkillMatch` (`matchAlgorithm.js`,
lines 67-79): each entry is a canonical key together with the list of raw
spellings belonging to the group. -/
def variations : List (String × List String) :=
  [("javascript", ["js", "javascript", "ecmascript"]),
   ("node.js", ["node", "nodejs", "node.js"]),
   ("react", ["react", "reactjs", "react.js"]),
   ("python", ["python", "python3", "py"]),
   ("mongodb", ["mongo", "mongodb", "mongo db"]),
   ("typescript", ["ts", "typescript"]),
   ("angular", ["angular", "angularjs", "angular.js"]),
   ("vue", ["vue", "vuejs", "vue.js"]),
   ("express", ["express", "express.js"]),
   ("next.js", ["next", "nextjs", "next.js"]),
   ("firebase", ["firebase", "google firebase"])]

/-- Model of `isSkillMatch(skill1, skill2)` from `matchAlgorithm.js` (lines 62-85).
`Object.keys(variations).find(...)` yields the key of the first group
containing the skill, or `undefined`; this is modelled by
`List.find?` followed by `Option.map`.  The final JavaScript comparison
`key1 === key2` also evaluates to `true` when both lookups are
`undefined`, which the `Option` equality reproduces faithfully. -/
def isSkillMatch (skill1 skill2 : String) : Bool :=
  if skill1 = skill2 then true
  else
    let key1 := (variations.find? fun kv => kv.2.contains skill1).map Prod.fst
    let key2 := (variations.find? fun kv => kv.2.contains skill2).map Prod.fst
    key1 == key2

/-- The deny-list of overly generic skills from `isRelevantSkill`
(`matchAlgorithm.js`, lines 93-96). -/
def genericSkills : List String :=
  ["computer", "software", "programming", "coding",
   "development", "technology", "it", "tech"]

/-- Model of `isRelevantSkill(skill)` from `matchAlgorithm.js` (lines 92-98). -/
def isRelevantSkill (skill : String) : Bool :=
  !(genericSkills.contains (lowerStr skill))

/-- The splitting of a character list at every space character, modelling
`str.split(' ')` (consecutive spaces produce empty pieces, as in
JavaScript). -/
def splitOnSpace : List Char → List (List Char)
  | [] => [[]]
  | c :: cs =>
    if c = ' ' then [] :: splitOnSpace cs
    else
      match splitOnSpace cs with
      | [] => [[c]]
      | w :: ws => (c :: w) :: ws

/-- Upper-case the first character of a word, modelling
`word.charAt(0).toUpperCase() + word.slice(1)` (the empty word maps to
itself, as `charAt(0)` of an empty string is the empty string). -/
def capWord : List Char → List Char
  | [] => []
  | c :: cs => Char.toUpper c :: cs

/-- Join a list of words with a single space between consecutive words,
modelling `arr.join(' ')`. -/
def joinSpace : List (List Char) → List Char
  | [] => []
  | [w] => w
  | w :: ws => w ++ ' ' :: joinSpace ws

/-- Model of `capitalizeFirstLetter(str)` from `matchAlgorithm.js` (lines 105-110):
split at spaces, capitalize each word, join with spaces. -/
def capitalizeFirstLetter (s : String) : String :=
  ⟨joinSpace ((splitOnSpace s.data).map capWord)⟩

/-- The result object of `calculateMatchScore`.  The early-return branch
omits the `bonusPoints` and `extraSkills` fields, hence the `Option`
types for those two fields. -/
structure MatchResult where
  score : Nat
  matchedSkills : List String
  missingSkills : List String
  matchPercentage : Nat
  bonusPoints : Option Nat
  extraSkills : Option (List String)
deriving DecidableEq, Repr

/-- Model of `calculateMatchScore(resumeSkills, jobSkills)` from
`matchAlgorithm.js` (lines 7-54).  The arguments are `Option`s because
the JavaScript guard `!resumeSkills || !jobSkills` tests for
`null`/`undefined` (an empty array is truthy and passes the guard, while
`jobSkills.length === 0` is tested separately). -/
def calculateMatchScore (resumeSkills jobSkills : Option (List String)) : MatchResult :=
  match resumeSkills, jobSkills with
  | some rs, some js =>
    if js.length = 0 then
      { score := 0, matchedSkills := [], missingSkills := js,
        matchPercentage := 0, bonusPoints := none, extraSkills := none }
    else
      let resumeSkillsLower := rs.map lowerStr
      let jobSkillsLower := js.map lowerStr
      let matchedSkills := jobSkillsLower.filter fun skill =>
        resumeSkillsLower.any fun resumeSkill => isSkillMatch resumeSkill skill
      let missingSkills := jobSkillsLower.filter fun skill =>
        !(resumeSkillsLower.any fun resumeSkill => isSkillMatch resumeSkill skill)
      let matchPercentage :=
        (200 * matchedSkills.length + jobSkillsLower.length) / (2 * jobSkillsLower.length)
      let extraSkills := resumeSkillsLower.filter fun skill =>
        !(jobSkillsLower.contains skill) && isRelevantSkill skill
      let bonusPoints := min (extraSkills.length * 2) 10
      let finalScore := min (matchPercentage + bonusPoints) 100
      { score := finalScore,
        matchedSkills := matchedSkills.map capitalizeFirstLetter,
        missingSkills := missingSkills.map capitalizeFirstLetter,
        matchPercentage := matchPercentage,
        bonusPoints := some bonusPoints,
        extraSkills := some (extraSkills.map capitalizeFirstLetter) }
  | _, _ =>
    { score := 0, matchedSkills := [], missingSkills := jobSkills.getD [],
      matchPercentage := 0, bonusPoints := none, extraSkills := none }

/-- The skill-equivalence relation described in specification section 4.1,
modelled from the words of the spec for comparison with the code
(`normalize` lower-cases and trims; two raw strings are the same skill iff
they fall in the same alias group, or, when neither belongs to any group,
iff their lower-cased forms are character-equal). -/
def specSameSkill (a b : String) : Bool :=
  let na := lowerStr a
  let nb := lowerStr b
  match (variations.find? fun kv => kv.2.contains na).map Prod.fst,
        (variations.find? fun kv => kv.2.contains nb).map Prod.fst with
  | some g1, some g2 => g1 == g2
  | none, none => na == nb
  | _, _ => false

/-- C1: the code disagrees with the claimed skill-equivalence relation.
For two distinct lower-case skills that belong to no alias group —
"docker" and "kubernetes" — both alias-table lookups in `isSkillMatch`
come back `undefined`, the final comparison `key1 === key2` is
`undefined === undefined`, and the predicate answers `true`, although the
strings are not character-equal; the spec (section 4.1) requires skills
outside every alias group to be compared by exact string equality, so the
spec-modelled relation answers `false` on the same pair. -/
theorem isSkillMatch_unknown_pair_bug :
    isSkillMatch "docker" "kubernetes" = true ∧
      specSameSkill "docker" "kubernetes" = false := by
  decide

/-- C2 counterexample: on the end-to-end example of the spec the returned
missing-skill list is not the claimed `["Node.Js", "Docker"]` —
`capitalizeFirstLetter` splits at spaces only, so the letter after the
dot in "node.js" is left lower-case. -/
theorem calculateMatchScore_example_missing_ne_claim :
    (calculateMatchScore (some ["JavaScript", "MongoDB", "React"])
        (some ["javascript", "node.js", "mongodb", "docker"])).missingSkills
      ≠ ["Node.Js", "Docker"] := by
  decide

/-- C2 (amended): candidate skills ["JavaScript","MongoDB","React"]
against job skills ["javascript","node.js","mongodb","docker"] yield
matchedSkills ["Javascript","Mongodb"], missingSkills
["Node.js","Docker"] (title case capitalizes only the first letter of
each space-separated word), matchPercentage 50, and score at least 50
(in fact 52, with a bonus of 2 for the extra skill "React"). -/
theorem calculateMatchScore_example :
    (calculateMatchScore (some ["JavaScript", "MongoDB", "React"])
          (some ["javascript", "node.js", "mongodb", "docker"])).matchedSkills
        = ["Javascript", "Mongodb"] ∧
      (calculateMatchScore (some ["JavaScript", "MongoDB", "React"])
          (some ["javascript", "node.js", "mongodb", "docker"])).missingSkills
        = ["Node.js", "Docker"] ∧
      (calculateMatchScore (some ["JavaScript", "MongoDB", "React"])
          (some ["javascript", "node.js", "mongodb", "docker"])).matchPercentage
        = 50 ∧
      50 ≤ (calculateMatchScore (some ["JavaScript", "MongoDB", "React"])
          (some ["javascript", "node.js", "mongodb", "docker"])).score := by
  decide

/-- C3: for every candidate-skill list, if the job-skill list is empty or
absent the scorer returns score 0, matchedSkills = [], missingSkills equal
to the job-skill list (the empty list when it was absent), and
matchPercentage 0; the early return happens before the percentage
division, so no division by zero occurs. -/
theorem calculateMatchScore_empty_jobSkills (rs : List String)
    (js : Option (List String)) (h : js = none ∨ js = some []) :
    calculateMatchScore (some rs) js =
      { score := 0, matchedSkills := [], missingSkills := js.getD [],
        matchPercentage := 0, bonusPoints := none, extraSkills := none } := by
  rcases h with h | h <;> subst h <;> rfl

/-- Witness for the empty-or-absent job-skill theorem at concrete inputs. -/
theorem calculateMatchScore_empty_jobSkills_witness :
    calculateMatchScore (some ["python", "go"]) (some []) =
        { score := 0, matchedSkills := [], missingSkills := [],
          matchPercentage := 0, bonusPoints := none, extraSkills := none } ∧
      calculateMatchScore (some ["python", "go"]) none =
        { score := 0, matchedSkills := [], missingSkills := [],
          matchPercentage := 0, bonusPoints := none, extraSkills := none } :=
  ⟨calculateMatchScore_empty_jobSkills ["python", "go"] (some []) (Or.inr rfl),
   calculateMatchScore_empty_jobSkills ["python", "go"] none (Or.inl rfl)⟩

/-- C5 counterexample: the candidate skill "js" is equivalent to the job
skill "javascript" under the scorer's own matching predicate (same alias
group), so per the claim it must not be counted as an extra skill; the
code nevertheless reports it as extra (the extra-skill filter uses
literal membership `includes`, not the equivalence relation) and awards
bonus points for it. -/
theorem calculateMatchScore_extra_not_equivalence :
    isSkillMatch "js" "javascript" = true ∧
      (calculateMatchScore (some ["js"]) (some ["javascript"])).extraSkills
        = some ["Js"] ∧
      (calculateMatchScore (some ["js"]) (some ["javascript"])).bonusPoints
        = some 2 := by
  decide

/-- C5 (amended): the extra skills are the lower-cased candidate skills
that are not *literally* an element of the lower-cased job-skill list
(plain string membership, not the section-4.1 equivalence) and are not in
the fixed deny-list of generic terms, in candidate order and title-cased;
bonusPoints = min(2 × extraCount, 10). -/
theorem calculateMatchScore_extraSkills_spec (rs js : List String)
    (h : js ≠ []) :
    (calculateMatchScore (some rs) (some js)).extraSkills
        = some (((rs.map lowerStr).filter fun s =>
            !((js.map lowerStr).contains s) && isRelevantSkill s).map
              capitalizeFirstLetter) ∧
      (calculateMatchScore (some rs) (some js)).bonusPoints
        = some (min
            (((rs.map lowerStr).filter fun s =>
              !((js.map lowerStr).contains s) && isRelevantSkill s).length * 2)
            10) := by
  have hlen : js.length ≠ 0 := fun hc => h (List.length_eq_zero.mp hc)
  constructor <;> simp [calculateMatchScore, hlen]

/-- Witness for the extra-skill characterization at a concrete input. -/
theorem calculateMatchScore_extraSkills_spec_witness :
    (calculateMatchScore (some ["React", "Software", "Rust"])
          (some ["react", "docker"])).extraSkills
        = some ((((["React", "Software", "Rust"].map lowerStr).filter fun s =>
            !((["react", "docker"].map lowerStr).contains s)
              && isRelevantSkill s)).map capitalizeFirstLetter) ∧
      (calculateMatchScore (some ["React", "Software", "Rust"])
          (some ["react", "docker"])).bonusPoints
        = some (min
            ((((["React", "Software", "Rust"].map lowerStr).filter fun s =>
              !((["react", "docker"].map lowerStr).contains s)
                && isRelevantSkill s)).length * 2) 10) :=
  calculateMatchScore_extraSkills_spec ["React", "Software", "Rust"]
    ["react", "docker"] (by decide)

/-!
## Partition of the job skills into matched and missing (C6)

The matched and missing lists are the two halves of filtering the
lower-cased job-skill list with one predicate and its negation, then
title-casing each entry.  Title-casing is injective on lower-cased
strings, so de-duplicated sizes are preserved.
-/

/-- A list of characters containing no upper-case basic-latin letter;
this holds for every output of `lowerStr`. -/
def NoUpper (l : List Char) : Prop :=
  ∀ c ∈ l, ¬(65 ≤ c.toNat ∧ c.toNat ≤ 90)

theorem char_toNat_ofNat_valid (n : Nat) (h : n < 55296) :
    (Char.ofNat n).toNat = n := by
  rw [Char.ofNat, dif_pos (Or.inl h)]
  simp [Char.ofNatAux, Char.toNat, UInt32.toNat]

theorem char_toNat_inj {c d : Char} (h : c.toNat = d.toNat) : c = d :=
  Char.ext (UInt32.toNat.inj h)

theorem toLower_toNat_of_upper (c : Char)
    (h : 65 ≤ c.toNat ∧ c.toNat ≤ 90) :
    (Char.toLower c).toNat = c.toNat + 32 := by
  rw [Char.toLower]
  simp only [ge_iff_le, h, and_self, if_true]
  exact char_toNat_ofNat_valid _ (by omega)

theorem toLower_of_not_upper (c : Char)
    (h : ¬(65 ≤ c.toNat ∧ c.toNat ≤ 90)) : Char.toLower c = c := by
  rw [Char.toLower]
  simp only [ge_iff_le]
  exact if_neg h

theorem toLower_not_upper (c : Char) :
    ¬(65 ≤ (Char.toLower c).toNat ∧ (Char.toLower c).toNat ≤ 90) := by
  by_cases h : 65 ≤ c.toNat ∧ c.toNat ≤ 90
  · rw [toLower_toNat_of_upper c h]
    omega
  · rw [toLower_of_not_upper c h]
    exact h

theorem lowerStr_noUpper (s : String) : NoUpper (lowerStr s).data := by
  intro c hc
  simp only [lowerStr, List.mem_map] at hc
  obtain ⟨d, _, rfl⟩ := hc
  exact toLower_not_upper d

theorem toUpper_toNat_of_lower (c : Char)
    (h : 97 ≤ c.toNat ∧ c.toNat ≤ 122) :
    (Char.toUpper c).toNat = c.toNat - 32 := by
  rw [Char.toUpper]
  simp only [ge_iff_le, h, and_self, if_true]
  exact char_toNat_ofNat_valid _ (by omega)

theorem toUpper_of_not_lower (c : Char)
    (h : ¬(97 ≤ c.toNat ∧ c.toNat ≤ 122)) : Char.toUpper c = c := by
  rw [Char.toUpper]
  simp only [ge_iff_le]
  exact if_neg h

theorem toUpper_inj_of_noUpper {c d : Char}
    (hc : ¬(65 ≤ c.toNat ∧ c.toNat ≤ 90))
    (hd : ¬(65 ≤ d.toNat ∧ d.toNat ≤ 90))
    (h : Char.toUpper c = Char.toUpper d) : c = d := by
  by_cases h1 : 97 ≤ c.toNat ∧ c.toNat ≤ 122 <;>
    by_cases h2 : 97 ≤ d.toNat ∧ d.toNat ≤ 122
  · have e1 := toUpper_toNat_of_lower c h1
    have e2 := toUpper_toNat_of_lower d h2
    rw [h] at e1
    exact char_toNat_inj (by omega)
  · rw [toUpper_of_not_lower d h2] at h
    have e1 := toUpper_toNat_of_lower c h1
    rw [h] at e1
    omega
  · rw [toUpper_of_not_lower c h1] at h
    have e2 := toUpper_toNat_of_lower d h2
    rw [← h] at e2
    omega
  · rw [toUpper_of_not_lower c h1, toUpper_of_not_lower d h2] at h
    exact h

theorem toUpper_eq_space {c : Char} (h : Char.toUpper c = ' ') : c = ' ' := by
  by_cases h1 : 97 ≤ c.toNat ∧ c.toNat ≤ 122
  · have e := toUpper_toNat_of_lower c h1
    rw [h] at e
    have : (' ' : Char).toNat = 32 := rfl
    omega
  · rwa [toUpper_of_not_lower c h1] at h

/-- One-pass form of `capitalizeFirstLetter` on characters: the flag
records whether the current position starts a word (beginning of string
or just after a space). -/
def capChars (b : Bool) : List Char → List Char
  | [] => []
  | c :: cs => (if b = true ∧ c ≠ ' ' then Char.toUpper c else c) :: capChars (c == ' ') cs

theorem splitOnSpace_ne_nil (l : List Char) : splitOnSpace l ≠ [] := by
  cases l with
  | nil => simp [splitOnSpace]
  | cons c cs =>
    rw [splitOnSpace]
    by_cases h : c = ' '
    · simp [h]
    · simp only [h, if_false]
      cases splitOnSpace cs <;> simp

theorem joinSpace_cons_cons (w : List Char) (x : List Char) (ws : List (List Char)) :
    joinSpace (w :: x :: ws) = w ++ ' ' :: joinSpace (x :: ws) := by
  rfl

theorem joinSpace_cons_head (c : Char) (w : List Char) (ws : List (List Char)) :
    joinSpace ((c :: w) :: ws) = c :: joinSpace (w :: ws) := by
  cases ws with
  | nil => rfl
  | cons x xs => rw [joinSpace_cons_cons, joinSpace_cons_cons]; rfl

theorem joinSpace_map_capWord_splitOnSpace (l : List Char) :
    joinSpace ((splitOnSpace l).map capWord) = capChars true l ∧
      ∀ w ws, splitOnSpace l = w :: ws →
        joinSpace (w :: ws.map capWord) = capChars false l := by
  induction l with
  | nil =>
    refine ⟨rfl, ?_⟩
    intro w ws h
    simp only [splitOnSpace] at h
    cases h
    rfl
  | cons c cs ih =>
    obtain ⟨ih1, ih2⟩ := ih
    obtain ⟨w, ws, hsplit⟩ : ∃ w ws, splitOnSpace cs = w :: ws := by
      cases hs : splitOnSpace cs with
      | nil => exact absurd hs (splitOnSpace_ne_nil cs)
      | cons w ws => exact ⟨w, ws, rfl⟩
    by_cases hc : c = ' '
    · subst hc
      have hsp : splitOnSpace (' ' :: cs) = [] :: splitOnSpace cs := by
        rw [splitOnSpace]
        simp
      constructor
      · rw [hsp, List.map_cons, hsplit, List.map_cons]
        rw [joinSpace_cons_cons]
        rw [← List.map_cons, ← hsplit, ih1]
        simp [capChars, capWord]
      · intro w' ws' h
        rw [hsp] at h
        cases h
        rw [hsplit, List.map_cons, joinSpace_cons_cons]
        rw [← List.map_cons, ← hsplit, ih1]
        simp [capChars]
    · have hflag : (c == ' ') = false := by simp [hc]
      have hsp : splitOnSpace (c :: cs) = (c :: w) :: ws := by
        rw [splitOnSpace]
        simp only [hc, if_false]
        rw [hsplit]
      constructor
      · rw [hsp, List.map_cons]
        have hcw : capWord (c :: w) = Char.toUpper c :: w := rfl
        rw [hcw, joinSpace_cons_head, ih2 w ws hsplit]
        show Char.toUpper c :: capChars false cs = capChars true (c :: cs)
        simp only [capChars, hflag]
        rw [if_pos ⟨by trivial, hc⟩]
      · intro w' ws' h
        rw [hsp] at h
        cases h
        rw [joinSpace_cons_head, ih2 w ws hsplit]
        show c :: capChars false cs = capChars false (c :: cs)
        simp only [capChars, hflag]
        rw [if_neg (fun hcon => by simp at hcon)]

theorem capChars_inj (b : Bool) (l₁ l₂ : List Char)
    (h₁ : NoUpper l₁) (h₂ : NoUpper l₂)
    (h : capChars b l₁ = capChars b l₂) : l₁ = l₂ := by
  induction l₁ generalizing b l₂ with
  | nil =>
    cases l₂ with
    | nil => rfl
    | cons d ds => simp [capChars] at h
  | cons c cs ih =>
    cases l₂ with
    | nil => simp [capChars] at h
    | cons d ds =>
      simp only [capChars] at h
      injection h with hhead htail
      have hc := h₁ c (List.mem_cons_self c cs)
      have hd := h₂ d (List.mem_cons_self d ds)
      have hcd : c = d := by
        cases b with
        | false =>
          rw [if_neg (fun hcon => by simp at hcon),
            if_neg (fun hcon => by simp at hcon)] at hhead
          exact hhead
        | true =>
          by_cases e1 : c = ' ' <;> by_cases e2 : d = ' '
          · rw [e1, e2]
          · rw [if_neg (fun hcon => hcon.2 e1), if_pos ⟨by trivial, e2⟩] at hhead
            rw [e1] at hhead ⊢
            exact (toUpper_eq_space hhead.symm).symm
          · rw [if_pos ⟨by trivial, e1⟩, if_neg (fun hcon => hcon.2 e2)] at hhead
            rw [e2] at hhead ⊢
            exact toUpper_eq_space hhead
          · rw [if_pos ⟨by trivial, e1⟩, if_pos ⟨by trivial, e2⟩] at hhead
            exact toUpper_inj_of_noUpper hc hd hhead
      subst hcd
      have htails : cs = ds :=
        ih (c == ' ') ds (fun x hx => h₁ x (List.mem_cons_of_mem c hx))
          (fun x hx => h₂ x (List.mem_cons_of_mem c hx)) htail
      rw [htails]

/-- The characters of `capitalizeFirstLetter s` are the one-pass
`capChars` transformation of the characters of `s`. -/
theorem capitalizeFirstLetter_data (s : String) :
    (capitalizeFirstLetter s).data = capChars true s.data :=
  (joinSpace_map_capWord_splitOnSpace s.data).1

theorem capitalizeFirstLetter_inj_of_noUpper {s t : String}
    (hs : NoUpper s.data) (ht : NoUpper t.data)
    (h : capitalizeFirstLetter s = capitalizeFirstLetter t) : s = t := by
  have hdata : capChars true s.data = capChars true t.data := by
    rw [← capitalizeFirstLetter_data, ← capitalizeFirstLetter_data, h]
  exact String.ext (capChars_inj true s.data t.data hs ht hdata)

theorem dedup_length_map_of_injOn {α β : Type} [DecidableEq α] [DecidableEq β]
    (f : α → β) (l : List α)
    (hinj : ∀ a ∈ l, ∀ b ∈ l, f a = f b → a = b) :
    ((l.map f).dedup).length = l.dedup.length := by
  induction l with
  | nil => rfl
  | cons a t ih =>
    have hmem : f a ∈ t.map f ↔ a ∈ t := by
      constructor
      · intro hm
        obtain ⟨b, hb, hfb⟩ := List.mem_map.mp hm
        have := hinj b (List.mem_cons_of_mem a hb) a (List.mem_cons_self a t) hfb
        rwa [← this]
      · exact fun hm => List.mem_map_of_mem f hm
    have ih' := ih fun x hx y hy hxy =>
      hinj x (List.mem_cons_of_mem a hx) y (List.mem_cons_of_mem a hy) hxy
    by_cases hmem2 : a ∈ t
    · rw [List.map_cons, List.dedup_cons_of_mem (hmem.mpr hmem2),
        List.dedup_cons_of_mem hmem2, ih']
    · rw [List.map_cons, List.dedup_cons_of_not_mem (fun hc => hmem2 (hmem.mp hc)),
        List.dedup_cons_of_not_mem hmem2]
      simp [ih']

/-- C6: for every candidate-skill list and job-skill list, the returned
matchedSkills and missingSkills partition the job skills: together (as a
set, i.e. after removing duplicates) they have exactly the size of the
de-duplicated job-skill list.  Comparisons in the scorer are performed on
the lower-cased forms (spec section 4.2), so the de-duplicated job-skill
list is the de-duplication of the lower-cased job skills. -/
theorem calculateMatchScore_partition (rs js : List String) :
    (((calculateMatchScore (some rs) (some js)).matchedSkills
        ++ (calculateMatchScore (some rs) (some js)).missingSkills).dedup).length
      = (((js.map lowerStr).dedup)).length := by
  by_cases hjs : js.length = 0
  · have hnil : js = [] := List.length_eq_zero.mp hjs
    subst hnil
    rfl
  · have hm : (calculateMatchScore (some rs) (some js)).matchedSkills
        = ((js.map lowerStr).filter fun skill =>
            (rs.map lowerStr).any fun r => isSkillMatch r skill).map
              capitalizeFirstLetter := by
      simp [calculateMatchScore, hjs]
    have hmiss : (calculateMatchScore (some rs) (some js)).missingSkills
        = ((js.map lowerStr).filter fun skill =>
            !((rs.map lowerStr).any fun r => isSkillMatch r skill)).map
              capitalizeFirstLetter := by
      simp [calculateMatchScore, hjs]
    rw [hm, hmiss, ← List.map_append]
    have hperm : List.Perm
        (((js.map lowerStr).filter fun skill =>
            (rs.map lowerStr).any fun r => isSkillMatch r skill)
          ++ ((js.map lowerStr).filter fun skill =>
            !((rs.map lowerStr).any fun r => isSkillMatch r skill)))
        (js.map lowerStr) :=
      List.filter_append_perm _ _
    have hperm2 := (hperm.map capitalizeFirstLetter).dedup
    rw [hperm2.length_eq]
    refine dedup_length_map_of_injOn capitalizeFirstLetter (js.map lowerStr) ?_
    intro a ha b hb hab
    obtain ⟨x, _, rfl⟩ := List.mem_map.mp ha
    obtain ⟨y, _, rfl⟩ := List.mem_map.mp hb
    exact capitalizeFirstLetter_inj_of_noUpper (lowerStr_noUpper x)
      (lowerStr_noUpper y) hab

/-- C10: a `null`/`undefined` candidate-skill list with a non-empty
job-skill list takes the early-return branch: score 0, matchedSkills [],
missingSkills equal to the job-skill list verbatim (neither lower-cased
nor title-cased), matchPercentage 0, and the `bonusPoints` and
`extraSkills` fields absent from the returned object. -/
theorem calculateMatchScore_null_resume (js : List String) (h : js ≠ []) :
    calculateMatchScore none (some js) =
      { score := 0, matchedSkills := [], missingSkills := js,
        matchPercentage := 0, bonusPoints := none, extraSkills := none } := by
  rfl

/-- Witness for the null-candidate theorem at a concrete input; the skills
keep their original casing in `missingSkills`. -/
theorem calculateMatchScore_null_resume_witness :
    calculateMatchScore none (some ["Node.JS", "Docker"]) =
      { score := 0, matchedSkills := [], missingSkills := ["Node.JS", "Docker"],
        matchPercentage := 0, bonusPoints := none, extraSkills := none } :=
  calculateMatchScore_null_resume ["Node.JS", "Docker"] (by decide)

/-!
## Stable sorting

`Array.prototype.sort` is stable (ECMAScript 2019 and later), and every
stable sort produces the same output for a given comparator-induced
preorder, so the JavaScript sorts below are modelled with a stable
insertion sort.  `insertS cond x l` inserts `x` immediately before the
first element `y` of `l` with `cond x y = true`.
-/

/-- Insert `x` before the first `y` with `cond x y = true`. -/
def insertS {α : Type} (cond : α → α → Bool) (x : α) : List α → List α
  | [] => [x]
  | y :: ys => if cond x y then x :: y :: ys else y :: insertS cond x ys

/-- Stable insertion sort with the placement test `cond`. -/
def sortS {α : Type} (cond : α → α → Bool) : List α → List α
  | [] => []
  | x :: xs => insertS cond x (sortS cond xs)

theorem insertS_perm {α : Type} (cond : α → α → Bool) (x : α) (l : List α) :
    List.Perm (insertS cond x l) (x :: l) := by
  induction l with
  | nil => exact List.Perm.refl _
  | cons y ys ih =>
    rw [insertS]
    by_cases h : cond x y
    · rw [if_pos h]
    · rw [if_neg h]
      exact
        ((ih.cons y).trans (List.Perm.swap x y ys)).symm.symm

theorem sortS_perm {α : Type} (cond : α → α → Bool) (l : List α) :
    List.Perm (sortS cond l) l := by
  induction l with
  | nil => exact List.Perm.refl _
  | cons x xs ih =>
    exact (insertS_perm cond x (sortS cond xs)).trans (ih.cons x)

theorem mem_sortS {α : Type} (cond : α → α → Bool) (l : List α) (a : α) :
    a ∈ sortS cond l ↔ a ∈ l :=
  (sortS_perm cond l).mem_iff

/-- Insertion with the descending-score test preserves sortedness. -/
theorem chain_insertS_desc {α : Type} (f : α → Nat) (x : α) (l : List α)
    (h : List.Chain' (fun a b => f b ≤ f a) l) :
    List.Chain' (fun a b => f b ≤ f a)
      (insertS (fun a b => decide (f b ≤ f a)) x l) := by
  induction l with
  | nil => simp [insertS]
  | cons y ys ih =>
    rw [insertS]
    by_cases hxy : f y ≤ f x
    · rw [if_pos (by simpa using hxy)]
      exact List.Chain'.cons hxy h
    · rw [if_neg (by simpa using hxy)]
      have hys : List.Chain' (fun a b => f b ≤ f a) ys := h.tail
      have hins := ih hys
      cases ys with
      | nil =>
        simp only [insertS]
        exact List.chain'_pair.mpr (by omega)
      | cons z zs =>
        rw [insertS]
        by_cases hxz : f z ≤ f x
        · rw [if_pos (by simpa using hxz)]
          exact List.Chain'.cons (by omega) (List.Chain'.cons hxz hys)
        · rw [if_neg (by simpa using hxz)]
          have hyz : f z ≤ f y := (List.chain'_cons.mp h).1
          rw [insertS, if_neg (by simpa using hxz)] at hins
          exact List.chain'_cons.mpr ⟨hyz, hins⟩

theorem chain_sortS_desc {α : Type} (f : α → Nat) (l : List α) :
    List.Chain' (fun a b => f b ≤ f a)
      (sortS (fun a b => decide (f b ≤ f a)) l) := by
  induction l with
  | nil => simp [sortS]
  | cons x xs ih => exact chain_insertS_desc f x _ ih

/-- Stability of the descending insertion: the elements of any one score
class keep their relative order. -/
theorem filter_insertS_desc {α : Type} (f : α → Nat) (n : Nat) (x : α)
    (l : List α) :
    (insertS (fun a b => decide (f b ≤ f a)) x l).filter (fun a => decide (f a = n))
      = if f x = n then x :: l.filter (fun a => decide (f a = n))
        else l.filter (fun a => decide (f a = n)) := by
  induction l with
  | nil =>
    by_cases hx : f x = n
    · simp [insertS, hx]
    · simp [insertS, hx]
  | cons y ys ih =>
    rw [insertS]
    by_cases hxy : f y ≤ f x
    · rw [if_pos (by simpa using hxy)]
      by_cases hx : f x = n
      · simp [List.filter, hx]
      · simp [List.filter, hx]
    · rw [if_neg (by simpa using hxy)]
      have hyn : ¬(f y ≤ f x) := hxy
      by_cases hy : f y = n
      · have hfilter : (y :: insertS (fun a b => decide (f b ≤ f a)) x ys).filter
            (fun a => decide (f a = n))
            = y :: (insertS (fun a b => decide (f b ≤ f a)) x ys).filter
                (fun a => decide (f a = n)) := by
          simp [List.filter, hy]
        rw [hfilter, ih]
        by_cases hx : f x = n
        · exact absurd (hx.trans hy.symm ▸ hxy) (by omega)
        · simp [List.filter, hx, hy]
      · have hfilter : (y :: insertS (fun a b => decide (f b ≤ f a)) x ys).filter
            (fun a => decide (f a = n))
            = (insertS (fun a b => decide (f b ≤ f a)) x ys).filter
                (fun a => decide (f a = n)) := by
          simp [List.filter, hy]
        rw [hfilter, ih]
        by_cases hx : f x = n
        · simp [List.filter, hx, hy]
        · simp [List.filter, hx, hy]

theorem filter_sortS_desc {α : Type} (f : α → Nat) (n : Nat) (l : List α) :
    (sortS (fun a b => decide (f b ≤ f a)) l).filter (fun a => decide (f a = n))
      = l.filter (fun a => decide (f a = n)) := by
  induction l with
  | nil => rfl
  | cons x xs ih =>
    rw [sortS, filter_insertS_desc, ih]
    by_cases hx : f x = n
    · simp [List.filter, hx]
    · simp [List.filter, hx]

/-!
## Job records and the recommendation pipeline (recommendation.controller.js)
-/

/-- A job record, with the filterable attributes used by the search and
recommendation code.  Dates are modelled as integer timestamps, the
salary range as its two integer endpoints. -/
structure Job where
  title : String
  description : String
  company : String
  location : String
  jobType : String
  experienceLevel : String
  salaryMin : Int
  salaryMax : Int
  skillsRequired : List String
  applicationDeadline : Int
  createdAt : Int
  isActive : Bool
  applicantsCount : Nat
  viewsCount : Nat
deriving DecidableEq, Repr

/-- Model of `jobsWithScores` of `getRecommendedJobs`
(`recommendation.controller.js`, lines 46-77): every fetched job is paired
with the match score computed by `calculateMatchScore` against the
resume skills. -/
def jobsWithScores (resumeSkills : List String) (jobs : List Job) :
    List (Job × Nat) :=
  jobs.map fun job =>
    (job, (calculateMatchScore (some resumeSkills) (some job.skillsRequired)).score)

/-- Model of `filteredJobs` of `getRecommendedJobs` (line 80): discard scored jobs
below the minimum match score. -/
def filteredJobs (resumeSkills : List String) (jobs : List Job)
    (minMatchScore : Nat) : List (Job × Nat) :=
  (jobsWithScores resumeSkills jobs).filter fun jw => decide (minMatchScore ≤ jw.2)

/-- Model of `sortedJobs` of `getRecommendedJobs` (line 83): stable sort by match
score, descending. -/
def sortedJobs (resumeSkills : List String) (jobs : List Job)
    (minMatchScore : Nat) : List (Job × Nat) :=
  sortS (fun a b => decide (b.2 ≤ a.2)) (filteredJobs resumeSkills jobs minMatchScore)

/-- Model of `recommendedJobs` of `getRecommendedJobs` (line 86): keep at most
`limit` entries. -/
def getRecommendedJobs (resumeSkills : List String) (jobs : List Job)
    (minMatchScore limit : Nat) : List (Job × Nat) :=
  (sortedJobs resumeSkills jobs minMatchScore).take limit

/-- C7: for every resume skill set, job batch, minimum score and limit,
the recommended jobs (i) all have match score at least the minimum,
(ii) are sorted descending by match score, (iii) within one score class
keep the relative order of the input job sequence (stability: the output
entries of any fixed score form a prefix of the score-filtered input
sequence), and (iv) number at most `limit`. -/
theorem getRecommendedJobs_spec (resumeSkills : List String) (jobs : List Job)
    (minMatchScore limit : Nat) :
    (∀ jw ∈ getRecommendedJobs resumeSkills jobs minMatchScore limit,
        minMatchScore ≤ jw.2) ∧
      List.Chain' (fun a b => b.2 ≤ a.2)
        (getRecommendedJobs resumeSkills jobs minMatchScore limit) ∧
      (∀ n, ((getRecommendedJobs resumeSkills jobs minMatchScore limit).filter
            fun jw => decide (jw.2 = n))
          <+: ((filteredJobs resumeSkills jobs minMatchScore).filter
            fun jw => decide (jw.2 = n))) ∧
      (getRecommendedJobs resumeSkills jobs minMatchScore limit).length ≤ limit := by
  refine ⟨?_, ?_, ?_, ?_⟩
  · intro jw hjw
    have hmem : jw ∈ sortedJobs resumeSkills jobs minMatchScore :=
      List.mem_of_mem_take hjw
    have hmem2 : jw ∈ filteredJobs resumeSkills jobs minMatchScore :=
      (mem_sortS _ _ jw).mp hmem
    have := (List.mem_filter.mp hmem2).2
    simpa using this
  · exact (chain_sortS_desc Prod.snd _).take limit
  · intro n
    have hstable := filter_sortS_desc (Prod.snd (α := Job) (β := Nat)) n
      (filteredJobs resumeSkills jobs minMatchScore)
    have hpre : ((getRecommendedJobs resumeSkills jobs minMatchScore limit).filter
          fun jw => decide (jw.2 = n))
        <+: ((sortedJobs resumeSkills jobs minMatchScore).filter
          fun jw => decide (jw.2 = n)) :=
      List.IsPrefix.filter (fun jw => decide (jw.2 = n))
        ⟨(sortedJobs resumeSkills jobs minMatchScore).drop limit,
          List.take_append_drop limit (sortedJobs resumeSkills jobs minMatchScore)⟩
    exact hstable ▸ hpre
  · exact List.length_take_le limit _

/-- Witness for the recommendation theorem at concrete inputs. -/
theorem getRecommendedJobs_spec_witness :
    (∀ jw ∈ getRecommendedJobs ["python"] [] 30 10, 30 ≤ jw.2) ∧
      List.Chain' (fun a b => b.2 ≤ a.2) (getRecommendedJobs ["python"] [] 30 10) ∧
      (∀ n, ((getRecommendedJobs ["python"] [] 30 10).filter
            fun jw => decide (jw.2 = n))
          <+: ((filteredJobs ["python"] [] 30).filter
            fun jw => decide (jw.2 = n))) ∧
      (getRecommendedJobs ["python"] [] 30 10).length ≤ 10 :=
  getRecommendedJobs_spec ["python"] [] 30 10

/-!
## Pagination (job.controller.js with job.validator.js)

Both the simple listing route and the advanced search route are
registered behind `searchJobValidator` and `validate`
(`routes/job.routes.js`): a request whose `page` or `limit` query
parameter fails validation is answered with HTTP 400 before the
controller runs, so the `skip`/`limit` computation only ever sees
parameters that passed the validator.
-/

/-- A raw `page`/`limit` query parameter: absent, present but not an
integer, or an integer value. -/
inductive RawParam where
  | missing : RawParam
  | malformed : RawParam
  | int : Int → RawParam
deriving DecidableEq, Repr

/-- Model of `parseInt(v) || d`: the default is used when the parameter is absent
or unparsable (`parseInt` yields `NaN`, which is falsy) and also when it
parses to `0` (zero is falsy). -/
def parseIntOr (v : RawParam) (d : Int) : Int :=
  match v with
  | .missing => d
  | .malformed => d
  | .int n => if n = 0 then d else n

/-- Model of `pageNum` of `getAllJobs` (`job.controller.js`, line 87). -/
def getAllJobsPageNum (page : RawParam) : Int :=
  parseIntOr page 1

/-- Model of `limitNum` of `getAllJobs` (`job.controller.js`, line 88). -/
def getAllJobsLimitNum (limit : RawParam) : Int :=
  min (parseIntOr limit 10) 50

/-- Model of `pageNum` of `advancedSearch` (`job.controller.js`, line 316). -/
def advancedSearchPageNum (page : RawParam) : Int :=
  max 1 (parseIntOr page 1)

/-- Model of `limitNum` of `advancedSearch` (`job.controller.js`, line 317). -/
def advancedSearchLimitNum (limit : RawParam) : Int :=
  min (max 1 (parseIntOr limit 10)) 50

/-- Model of `query('page').optional().isInt({ min: 1 })` of `searchJobValidator`
(`job.validator.js`, line 69). -/
def validPageParam : RawParam → Bool
  | .missing => true
  | .malformed => false
  | .int n => decide (1 ≤ n)

/-- Model of `query('limit').optional().isInt({ min: 1, max: 50 })` of
`searchJobValidator` (`job.validator.js`, line 70). -/
def validLimitParam : RawParam → Bool
  | .missing => true
  | .malformed => false
  | .int n => decide (1 ≤ n ∧ n ≤ 50)

/-- C4: for every job-listing request that reaches the pagination
computation (that is, whose raw `page`/`limit` parameters pass the
route's validator — all other requests are rejected with HTTP 400 before
`skip` is computed), the effective page number is at least 1 and the
effective page size lies in [1, 50], in the simple listing and in the
advanced search alike. -/
theorem pagination_effective_bounds (page limit : RawParam)
    (hp : validPageParam page = true) (hl : validLimitParam limit = true) :
    1 ≤ getAllJobsPageNum page ∧
      1 ≤ getAllJobsLimitNum limit ∧ getAllJobsLimitNum limit ≤ 50 ∧
      1 ≤ advancedSearchPageNum page ∧
      1 ≤ advancedSearchLimitNum limit ∧ advancedSearchLimitNum limit ≤ 50 := by
  cases page with
  | missing =>
    cases limit with
    | missing =>
      simp [getAllJobsPageNum, getAllJobsLimitNum, advancedSearchPageNum,
        advancedSearchLimitNum, parseIntOr]
    | malformed => simp [validLimitParam] at hl
    | int n =>
      have hn : 1 ≤ n ∧ n ≤ 50 := by simpa [validLimitParam] using hl
      simp only [getAllJobsPageNum, getAllJobsLimitNum, advancedSearchPageNum,
        advancedSearchLimitNum, parseIntOr]
      split_ifs <;> omega
  | malformed => simp [validPageParam] at hp
  | int m =>
    have hm : 1 ≤ m := by simpa [validPageParam] using hp
    cases limit with
    | missing =>
      simp only [getAllJobsPageNum, getAllJobsLimitNum, advancedSearchPageNum,
        advancedSearchLimitNum, parseIntOr]
      split_ifs <;> omega
    | malformed => simp [validLimitParam] at hl
    | int n =>
      have hn : 1 ≤ n ∧ n ≤ 50 := by simpa [validLimitParam] using hl
      simp only [getAllJobsPageNum, getAllJobsLimitNum, advancedSearchPageNum,
        advancedSearchLimitNum, parseIntOr]
      split_ifs <;> omega

/-- Witness for the pagination bounds at concrete validated parameters. -/
theorem pagination_effective_bounds_witness :
    1 ≤ getAllJobsPageNum (RawParam.int 3) ∧
      1 ≤ getAllJobsLimitNum (RawParam.int 42) ∧
      getAllJobsLimitNum (RawParam.int 42) ≤ 50 ∧
      1 ≤ advancedSearchPageNum (RawParam.int 3) ∧
      1 ≤ advancedSearchLimitNum (RawParam.int 42) ∧
      advancedSearchLimitNum (RawParam.int 42) ≤ 50 :=
  pagination_effective_bounds (RawParam.int 3) (RawParam.int 42)
    (by decide) (by decide)

/-!
## Search query, aggregation and statistics (searchUtils.js)

Regular-expression filters built from plain filter strings with the `i`
flag (`new RegExp(s, 'i').test(x)`) are modelled as case-insensitive
substring containment.  A filter field that is absent or empty is
falsy in JavaScript and disables the corresponding clause; such a field
is modelled as `none`.
-/

/-- Does the second character list start with the first? -/
def startsWithL : List Char → List Char → Bool
  | [], _ => true
  | _ :: _, [] => false
  | a :: as, b :: bs => a == b && startsWithL as bs

/-- Does the needle occur as a contiguous run inside the haystack? -/
def containsSub (needle : List Char) : List Char → Bool
  | [] => needle.isEmpty
  | c :: cs => startsWithL needle (c :: cs) || containsSub needle cs

/-- Case-insensitive substring test, modelling
`new RegExp(pat, 'i').test(s)` for a pattern without metacharacters. -/
def containsCI (pat s : String) : Bool :=
  containsSub (pat.data.map Char.toLower) (s.data.map Char.toLower)

/-- The filter specification consumed by `buildJobSearchQuery`
(`searchUtils.js`, lines 10-82).  The `skills` value has already been
wrapped into an array when it was a single string. -/
structure SearchFilters where
  search : Option String
  location : Option String
  jobType : Option String
  experienceLevel : Option String
  skills : Option (List String)
  minSalary : Option Int
  maxSalary : Option Int
  startDate : Option Int
  endDate : Option Int
  deadlineAfter : Option Int
  excludeJobType : Option String
  sortBy : Option String
deriving Repr

/-- The predicate on job documents denoted by the query object built by
`buildJobSearchQuery`.  Note the source quirk: when `excludeJobType` is
set, the assignment `query.jobType = { $ne: ... }` (line 78) overwrites
any equality constraint installed by the `jobType` filter (line 31). -/
def matchesJobSearchQuery (f : SearchFilters) (j : Job) : Bool :=
  j.isActive
    && (match f.search with
        | none => true
        | some s => containsCI s j.title || containsCI s j.description
            || containsCI s j.company || containsCI s j.location)
    && (match f.location with
        | none => true
        | some loc => containsCI loc j.location)
    && (match f.excludeJobType with
        | some ex => decide (j.jobType ≠ ex)
        | none =>
          match f.jobType with
          | none => true
          | some t => decide (j.jobType = t))
    && (match f.experienceLevel with
        | none => true
        | some e => decide (j.experienceLevel = e))
    && (match f.skills with
        | none => true
        | some sk => sk.all fun s => j.skillsRequired.any fun r => containsCI s r)
    && (match f.minSalary with
        | none => true
        | some m => decide (m ≤ j.salaryMin))
    && (match f.maxSalary with
        | none => true
        | some m => decide (j.salaryMax ≤ m))
    && (match f.startDate with
        | none => true
        | some d => decide (d ≤ j.createdAt))
    && (match f.endDate with
        | none => true
        | some d => decide (j.createdAt ≤ d))
    && (match f.deadlineAfter with
        | none => true
        | some d => decide (d ≤ j.applicationDeadline))

/-- The placement test corresponding to one entry of `buildSortOptions`
(`searchUtils.js`, lines 89-106); unknown sort keys fall back to
`newest`. -/
def buildSortOptions (sortBy : String) : Job → Job → Bool :=
  if sortBy = "oldest" then fun x y => decide (x.createdAt ≤ y.createdAt)
  else if sortBy = "salaryHigh" then fun x y =>
    decide (y.salaryMax < x.salaryMax
      ∨ (y.salaryMax = x.salaryMax ∧ y.salaryMin ≤ x.salaryMin))
  else if sortBy = "salaryLow" then fun x y =>
    decide (x.salaryMin < y.salaryMin
      ∨ (x.salaryMin = y.salaryMin ∧ x.salaryMax ≤ y.salaryMax))
  else if sortBy = "titleAsc" then fun x y => decide (x.title ≤ y.title)
  else if sortBy = "titleDesc" then fun x y => decide (y.title ≤ x.title)
  else if sortBy = "companyAsc" then fun x y => decide (x.company ≤ y.company)
  else if sortBy = "companyDesc" then fun x y => decide (y.company ≤ x.company)
  else if sortBy = "applicantsHigh" then fun x y =>
    decide (y.applicantsCount ≤ x.applicantsCount)
  else if sortBy = "applicantsLow" then fun x y =>
    decide (x.applicantsCount ≤ y.applicantsCount)
  else if sortBy = "viewsHigh" then fun x y => decide (y.viewsCount ≤ x.viewsCount)
  else if sortBy = "viewsLow" then fun x y => decide (x.viewsCount ≤ y.viewsCount)
  else fun x y => decide (y.createdAt ≤ x.createdAt)

/-- The set of job documents produced by the aggregation pipeline of
`buildSearchAggregation` (`searchUtils.js`, lines 113-165) on a job
collection: the `$match` stage filters with `buildJobSearchQuery`, the
`$lookup`/`$unwind`/`$project` stages only attach employer data and
select fields (they neither add nor remove job documents), and the
`$sort` stage reorders.  This is the result set of `advancedSearch`
before its pagination `skip`/`limit`. -/
def advancedSearchResults (f : SearchFilters) (db : List Job) : List Job :=
  sortS (buildSortOptions (f.sortBy.getD "newest"))
    (db.filter (matchesJobSearchQuery f))

/-- A `$group` by key with `$sum: 1` followed by `$sort` on the count,
descending: one pair per distinct key, carrying its number of
occurrences. -/
def groupCounts (keys : List String) : List (String × Nat) :=
  sortS (fun a b => decide (b.2 ≤ a.2))
    ((keys.dedup).map fun k => (k, keys.count k))

/-- The statistics object of `getSearchStats` (`searchUtils.js`, lines
172-223). -/
structure SearchStats where
  totalJobs : Nat
  jobTypes : List (String × Nat)
  experienceLevels : List (String × Nat)
  topLocations : List (String × Nat)
  salaryRange : Int × Int × Rat
deriving Repr

/-- Model of `getSearchStats(Job, filters)` from `searchUtils.js`: every aggregate
is computed against `buildJobSearchQuery(filters)` over the same job
collection. -/
def getSearchStats (db : List Job) (f : SearchFilters) : SearchStats :=
  let matched := db.filter (matchesJobSearchQuery f)
  { totalJobs := matched.length
    jobTypes := groupCounts (matched.map Job.jobType)
    experienceLevels := groupCounts (matched.map Job.experienceLevel)
    topLocations :=
      (sortS (fun a b => decide (b.2 ≤ a.2))
        (((matched.map Job.location).dedup).map fun k =>
          (k, (matched.map Job.location).count k))).take 10
    salaryRange :=
      match matched.map Job.salaryMin, matched.map Job.salaryMax with
      | m :: ms, mx :: mxs =>
        (ms.foldl min m, mxs.foldl max mx,
          (((m :: ms).foldl (· + ·) 0 : Int) : Rat) / ((ms.length + 1 : Nat) : Rat))
      | _, _ => (0, 0, 0) }

/-- C8: for every filter specification and job collection, the search
statistics are computed over exactly the filtered job set the advanced
search itself would return (the statistics population is a permutation
of the pre-pagination search results, and `totalJobs` is its size), and
the reported `totalJobs` equals the sum of the per-jobType facet
counts. -/
theorem getSearchStats_spec (f : SearchFilters) (db : List Job) :
    (getSearchStats db f).totalJobs
        = (((getSearchStats db f).jobTypes).map Prod.snd).sum ∧
      (getSearchStats db f).totalJobs = (advancedSearchResults f db).length ∧
      List.Perm (advancedSearchResults f db)
        (db.filter (matchesJobSearchQuery f)) := by
  have hperm : List.Perm (advancedSearchResults f db)
      (db.filter (matchesJobSearchQuery f)) :=
    sortS_perm _ _
  refine ⟨?_, ?_, hperm⟩
  · show (db.filter (matchesJobSearchQuery f)).length = _
    have h1 : ((getSearchStats db f).jobTypes).map Prod.snd
        = (sortS (fun a b => decide (b.2 ≤ a.2))
            ((((db.filter (matchesJobSearchQuery f)).map Job.jobType).dedup).map
              fun k => (k, ((db.filter (matchesJobSearchQuery f)).map Job.jobType).count k))).map
          Prod.snd := rfl
    have h2 := (sortS_perm (fun a b : String × Nat => decide (b.2 ≤ a.2))
      ((((db.filter (matchesJobSearchQuery f)).map Job.jobType).dedup).map
        fun k => (k, ((db.filter (matchesJobSearchQuery f)).map Job.jobType).count k))).map
      Prod.snd
    rw [h1, h2.sum_eq, List.map_map]
    have h3 : (Prod.snd ∘ fun k =>
        (k, ((db.filter (matchesJobSearchQuery f)).map Job.jobType).count k))
        = fun k => ((db.filter (matchesJobSearchQuery f)).map Job.jobType).count k :=
      rfl
    rw [h3, List.sum_map_count_dedup_eq_length, List.length_map]
  · exact hperm.length_eq.symm

/-!
## Summary generation (resume.controller.js, generateSummary)

`generateSummary` first removes e-mail addresses, URLs, linkedin/github
links, phone numbers and bullet markers with a chain of global regex
replacements, then splits into sentences, filters, ranks and joins.
The regex replacements are modelled by direct scanners:
* `\S+@\S+` matches, inside a whitespace-delimited token, exactly when
  the token has an inner `@` (not first or last character), and the
  greedy `\S+` on both sides then consumes the whole token;
* `http\S+` and `www\.\S+` consume from their first occurrence inside a
  token to the end of the token;
* `linkedin\.com\S*` and `github\.com\S*` likewise (case-insensitive);
* the phone pattern and the bullet/whitespace rewrites are scanned
  character by character (with a fuel argument equal to the input length,
  which suffices because every step consumes at least one character).
-/

/-- Apply a transformation to every maximal whitespace-free token of the
character list, keeping the whitespace between tokens; `acc` holds the
reversed current token. -/
def mapTokensAux (f : List Char → List Char) (acc : List Char) :
    List Char → List Char
  | [] => f acc.reverse
  | c :: cs =>
    if c.isWhitespace then f acc.reverse ++ c :: mapTokensAux f [] cs
    else mapTokensAux f (c :: acc) cs

/-- Apply a transformation to every whitespace-delimited token. -/
def mapTokens (f : List Char → List Char) (l : List Char) : List Char :=
  mapTokensAux f [] l

/-- Is there an `@` at a position that is neither the first nor the last
character?  (Precisely then does `\S+@\S+` match the token, and the
greedy match covers the whole token.) -/
def auxAtBeforeLast : List Char → Bool
  | [] => false
  | [_] => false
  | c :: cs => c == '@' || auxAtBeforeLast cs

def hasInternalAt : List Char → Bool
  | [] => false
  | _ :: rest => auxAtBeforeLast rest

/-- Model of `replace(/\S+@\S+/g, '')` on one token. -/
def killEmailTok (tok : List Char) : List Char :=
  if hasInternalAt tok then [] else tok

/-- Model of `replace(/http\S+|www\.\S+/g, '')` on one token: cut from the first
occurrence of `http` or `www.` that is followed by at least one further
character. -/
def cutUrlTok : List Char → List Char
  | [] => []
  | c :: cs =>
    if (startsWithL ("http".data) (c :: cs) && decide (4 < (c :: cs).length))
        || (startsWithL ("www.".data) (c :: cs) && decide (4 < (c :: cs).length)) then
      []
    else c :: cutUrlTok cs

/-- Model of `replace(/pat\S*/gi, '')` on one token for a literal lower-case
pattern `pat`: cut from the first case-insensitive occurrence. -/
def cutCITok (pat : List Char) : List Char → List Char
  | [] => []
  | c :: cs =>
    if startsWithL pat ((c :: cs).map Char.toLower) then []
    else c :: cutCITok pat cs

/-- Consume a maximal run of decimal digits, returning how many and the
rest. -/
def takeDigitsCount : List Char → Nat × List Char
  | [] => (0, [])
  | c :: cs =>
    if c.isDigit then
      let r := takeDigitsCount cs
      (r.1 + 1, r.2)
    else (0, c :: cs)

/-- Try to match the phone pattern `\(\+\d{2}\)\s*\d{3}[-\s]?\d{4,}` at
the head of the list; on success return the remainder after the match. -/
def matchPhone : List Char → Option (List Char)
  | '(' :: '+' :: d1 :: d2 :: ')' :: rest =>
    if d1.isDigit && d2.isDigit then
      match rest.dropWhile Char.isWhitespace with
      | a :: b :: c :: rest3 =>
        if a.isDigit && b.isDigit && c.isDigit then
          let r4 := takeDigitsCount rest3
          if 4 ≤ r4.1 then some r4.2
          else
            match rest3 with
            | s :: rest4 =>
              if s == '-' || s.isWhitespace then
                let r5 := takeDigitsCount rest4
                if 4 ≤ r5.1 then some r5.2 else none
              else none
            | [] => none
        else none
      | _ => none
    else none
  | _ => none

/-- Model of `replace(/\(\+\d{2}\)\s*\d{3}[-\s]?\d{4,}/g, '')`: scan left to
right, removing every match. -/
def removePhones : Nat → List Char → List Char
  | _, [] => []
  | 0, l => l
  | fuel + 1, c :: cs =>
    match matchPhone (c :: cs) with
    | some rest => removePhones fuel rest
    | none => c :: removePhones fuel cs

def isBullet (c : Char) : Bool :=
  c == '|' || c == '•' || c == '*' || c == '-'

/-- Model of `replace(/[\|•\*\-]\s*/g, ' ')`: a bullet character and any directly
following whitespace become one space. -/
def replaceBullets : Nat → List Char → List Char
  | _, [] => []
  | 0, l => l
  | fuel + 1, c :: cs =>
    if isBullet c then ' ' :: replaceBullets fuel (cs.dropWhile Char.isWhitespace)
    else c :: replaceBullets fuel cs

/-- Model of `replace(/\s+/g, ' ')`. -/
def collapseWs : Nat → List Char → List Char
  | _, [] => []
  | 0, l => l
  | fuel + 1, c :: cs =>
    if c.isWhitespace then ' ' :: collapseWs fuel (cs.dropWhile Char.isWhitespace)
    else c :: collapseWs fuel cs

/-- Model of `s.trim()`. -/
def trimWs (l : List Char) : List Char :=
  ((l.dropWhile Char.isWhitespace).reverse.dropWhile Char.isWhitespace).reverse

/-- The `cleanedText` of `generateSummary` (`resume.controller.js`, lines
367-375): e-mails, URLs, linkedin/github links, phone numbers, bullet
markers, whitespace collapse, trim — in source order. -/
def cleanText (text : String) : List Char :=
  let t1 := mapTokens killEmailTok text.data
  let t2 := mapTokens cutUrlTok t1
  let t3 := mapTokens (cutCITok ("linkedin.com".data)) t2
  let t4 := mapTokens (cutCITok ("github.com".data)) t3
  let t5 := removePhones t4.length t4
  let t6 := replaceBullets t5.length t5
  let t7 := collapseWs t6.length t6
  trimWs t7

def isSentenceTerm (c : Char) : Bool :=
  c == '.' || c == '!' || c == '?'

/-- Model of `split(/[.!?]+/)`: pieces between maximal runs of sentence
terminators (empty pieces at the ends included, as in JavaScript). -/
def splitSentencesAux : Nat → List Char → List (List Char)
  | _, [] => [[]]
  | 0, l => [l]
  | fuel + 1, c :: cs =>
    if isSentenceTerm c then
      [] :: splitSentencesAux fuel (cs.dropWhile isSentenceTerm)
    else
      match splitSentencesAux fuel cs with
      | [] => [[c]]
      | w :: ws => (c :: w) :: ws

def splitSentences (l : List Char) : List (List Char) :=
  splitSentencesAux l.length l

/-- Four consecutive decimal digits somewhere in the sentence, i.e.
`/\d{4}/.test(s)`. -/
def hasFourDigitRun : List Char → Bool
  | a :: b :: c :: d :: rest =>
    (a.isDigit && b.isDigit && c.isDigit && d.isDigit)
      || hasFourDigitRun (b :: c :: d :: rest)
  | _ => false

/-- The sentence filter of `generateSummary` (lines 381-388): length
over 30, no mention of phone/email/linkedin/github (case-insensitive),
and no four-digit run anywhere. -/
def keepSentence (s : List Char) : Bool :=
  decide (30 < s.length)
    && !(containsSub ("phone".data) (s.map Char.toLower))
    && !(containsSub ("email".data) (s.map Char.toLower))
    && !(containsSub ("linkedin".data) (s.map Char.toLower))
    && !(containsSub ("github".data) (s.map Char.toLower))
    && !(hasFourDigitRun s)

/-- The strength keywords of `generateSummary` (line 391). -/
def priorityKeywords : List String :=
  ["passionate", "experienced", "skilled", "specialized", "expert",
   "professional", "developer", "engineer"]

/-- The ranking score of a sentence: how many strength keywords it
contains (line 393). -/
def sentenceScore (s : List Char) : Nat :=
  (priorityKeywords.filter fun kw => containsSub kw.data (s.map Char.toLower)).length

/-- Model of `[...new Set(l)]`: de-duplication keeping first occurrences. -/
def dedupFirstAux (seen : List (List Char)) : List (List Char) → List (List Char)
  | [] => []
  | x :: xs =>
    if seen.contains x then dedupFirstAux seen xs
    else x :: dedupFirstAux (x :: seen) xs

def dedupFirst (l : List (List Char)) : List (List Char) :=
  dedupFirstAux [] l

/-- Model of `arr.join('. ')`. -/
def joinDotSpace : List (List Char) → List Char
  | [] => []
  | [w] => w
  | w :: ws => w ++ '.' :: ' ' :: joinDotSpace ws

/-- The trimmed sentence pieces of the cleaned text (lines 378-380). -/
def sentencePieces (text : String) : List (List Char) :=
  (splitSentences (cleanText text)).map trimWs

/-- The `sentences` constant of `generateSummary` (lines 378-388). -/
def keptSentences (text : String) : List (List Char) :=
  (sentencePieces text).filter keepSentence

/-- The `prioritized` constant (lines 392-396): stable sort by keyword
count, descending. -/
def prioritizedSentences (text : String) : List (List Char) :=
  sortS (fun a b => decide (sentenceScore b ≤ sentenceScore a))
    (keptSentences text)

/-- The `summarySentences` constant (line 399). -/
def summarySentences (text : String) : List (List Char) :=
  (dedupFirst (prioritizedSentences text)).take 3

/-- Model of `generateSummary(text)` from `resume.controller.js` (lines 365-402):
join the selected sentences with ". " and append "."; with no selected
sentence the result is the fixed fallback string. -/
def generateSummary (text : String) : String :=
  if (summarySentences text).length = 0 then
    "Professional profile extracted from resume."
  else ⟨joinDotSpace (summarySentences text) ++ ['.']⟩

/-- The claim-side sentence filter, modelled from the spec words: the
spec keeps sentences that "do not consist mainly of a bare year", read
as: the digits do not make up half or more of the sentence.  (The code
instead drops every sentence containing any four-digit run.) -/
def mainlyBareYear (s : List Char) : Bool :=
  decide (s.length ≤ 2 * (s.filter Char.isDigit).length)

/-- The summary generator as described by the claim, for comparison with
the code: identical pipeline, but the year clause of the filter follows
the spec words (`mainlyBareYear`) instead of the code's four-digit
test. -/
def generateSummarySpecC9 (text : String) : String :=
  let kept := (sentencePieces text).filter fun s =>
    decide (30 < s.length)
      && !(containsSub ("phone".data) (s.map Char.toLower))
      && !(containsSub ("email".data) (s.map Char.toLower))
      && !(containsSub ("linkedin".data) (s.map Char.toLower))
      && !(containsSub ("github".data) (s.map Char.toLower))
      && !(mainlyBareYear s)
  let prioritized := sortS (fun a b => decide (sentenceScore b ≤ sentenceScore a)) kept
  let chosen := (dedupFirst prioritized).take 3
  if chosen.length = 0 then "Professional profile extracted from resume."
  else ⟨joinDotSpace chosen ++ ['.']⟩

theorem keptSentences_def (text : String) :
    keptSentences text = (sentencePieces text).filter keepSentence := rfl

theorem prioritizedSentences_def (text : String) :
    prioritizedSentences text
      = sortS (fun a b => decide (sentenceScore b ≤ sentenceScore a))
          (keptSentences text) := rfl

theorem summarySentences_def (text : String) :
    summarySentences text = (dedupFirst (prioritizedSentences text)).take 3 := rfl

theorem generateSummary_def (text : String) :
    generateSummary text
      = if (summarySentences text).length = 0 then
          "Professional profile extracted from resume."
        else ⟨joinDotSpace (summarySentences text) ++ ['.']⟩ := rfl

theorem dedupFirst_ne_nil {l : List (List Char)} (h : l ≠ []) :
    dedupFirst l ≠ [] := by
  cases l with
  | nil => exact absurd rfl h
  | cons x xs => simp [dedupFirst, dedupFirstAux]

theorem take_three_ne_nil {α : Type} {l : List α} (h : l ≠ []) :
    l.take 3 ≠ [] := by
  cases l with
  | nil => exact absurd rfl h
  | cons x xs => simp

/-- C9 counterexample: a sentence longer than 30 characters that merely
mentions a year in passing ("... since 2019 ...") does not consist
mainly of a bare year, so per the claim it qualifies and the summary
should consist of it; the code filter however drops every sentence
containing any four-digit run, so the code returns the no-qualifying-
sentence fallback string, and the code output differs from the
claim-described output on this input. -/
theorem generateSummary_year_sentence_counterexample :
    generateSummary
        "Passionate about building scalable backend systems since 2019 with care"
        = "Professional profile extracted from resume." ∧
      generateSummarySpecC9
        "Passionate about building scalable backend systems since 2019 with care"
        = "Passionate about building scalable backend systems since 2019 with care." ∧
      generateSummary
        "Passionate about building scalable backend systems since 2019 with care"
        ≠ generateSummarySpecC9
          "Passionate about building scalable backend systems since 2019 with care" := by
  refine ⟨by decide, by decide, by decide⟩

attribute [irreducible] cleanText sentencePieces keptSentences
  prioritizedSentences summarySentences generateSummary

/-- C9 (amended): for every input text the summary generator keeps only
sentences of length over 30 that do not mention phone/email/linkedin/
github and contain no four-digit run anywhere (rather than merely not
consisting mainly of a bare year); it ranks them by strength-keyword
count, descending and stable (within one score the original order is
kept); and it returns the first 3 distinct sentences joined with ". "
and terminated with a period, or the fixed fallback string when no
sentence qualifies. -/
theorem generateSummary_spec (text : String) :
    (∀ s ∈ keptSentences text,
        30 < s.length
          ∧ containsSub ("phone".data) (s.map Char.toLower) = false
          ∧ containsSub ("email".data) (s.map Char.toLower) = false
          ∧ containsSub ("linkedin".data) (s.map Char.toLower) = false
          ∧ containsSub ("github".data) (s.map Char.toLower) = false
          ∧ hasFourDigitRun s = false) ∧
      List.Chain' (fun a b => sentenceScore b ≤ sentenceScore a)
        (prioritizedSentences text) ∧
      (∀ n, (prioritizedSentences text).filter (fun s => decide (sentenceScore s = n))
          = (keptSentences text).filter (fun s => decide (sentenceScore s = n))) ∧
      (keptSentences text = [] →
        generateSummary text = "Professional profile extracted from resume.") ∧
      (keptSentences text ≠ [] →
        generateSummary text
          = ⟨joinDotSpace ((dedupFirst (prioritizedSentences text)).take 3)
              ++ ['.']⟩) := by
  refine ⟨?_, ?_, ?_, ?_, ?_⟩
  · intro s hs
    rw [keptSentences_def] at hs
    have hkeep : keepSentence s = true := (List.mem_filter.mp hs).2
    simpa [keepSentence, Bool.and_eq_true, Bool.not_eq_true',
      decide_eq_true_eq, and_assoc] using hkeep
  · rw [prioritizedSentences_def]
    exact chain_sortS_desc sentenceScore (keptSentences text)
  · intro n
    rw [prioritizedSentences_def]
    exact filter_sortS_desc sentenceScore n (keptSentences text)
  · intro h
    have hsumm : summarySentences text = [] := by
      rw [summarySentences_def, prioritizedSentences_def, h]
      rfl
    rw [generateSummary_def, hsumm]
    rfl
  · intro h
    have hpri : prioritizedSentences text ≠ [] := by
      intro hc
      have hlen := (sortS_perm (fun a b => decide (sentenceScore b ≤ sentenceScore a))
        (keptSentences text)).length_eq
      rw [← prioritizedSentences_def, hc] at hlen
      exact h (List.length_eq_zero.mp hlen.symm)
    have hne : summarySentences text ≠ [] := by
      rw [summarySentences_def]
      exact take_three_ne_nil (dedupFirst_ne_nil hpri)
    rw [generateSummary_def,
      if_neg (fun hc => hne (List.length_eq_zero.mp hc)), summarySentences_def]

/-- Witness for the summary theorem at a concrete input text with two
qualifying sentences of different scores. -/
theorem generateSummary_spec_witness :
    (∀ s ∈ keptSentences
        "I build reliable distributed systems every single day after lunch! Skilled in compilers and verification work always",
        30 < s.length
          ∧ containsSub ("phone".data) (s.map Char.toLower) = false
          ∧ containsSub ("email".data) (s.map Char.toLower) = false
          ∧ containsSub ("linkedin".data) (s.map Char.toLower) = false
          ∧ containsSub ("github".data) (s.map Char.toLower) = false
          ∧ hasFourDigitRun s = false) ∧
      List.Chain' (fun a b => sentenceScore b ≤ sentenceScore a)
        (prioritizedSentences
          "I build reliable distributed systems every single day after lunch! Skilled in compilers and verification work always") ∧
      (∀ n, (prioritizedSentences
            "I build reliable distributed systems every single day after lunch! Skilled in compilers and verification work always").filter
            (fun s => decide (sentenceScore s = n))
          = (keptSentences
            "I build reliable distributed systems every single day after lunch! Skilled in compilers and verification work always").filter
            (fun s => decide (sentenceScore s = n))) ∧
      (keptSentences
          "I build reliable distributed systems every single day after lunch! Skilled in compilers and verification work always" = [] →
        generateSummary
          "I build reliable distributed systems every single day after lunch! Skilled in compilers and verification work always"
          = "Professional profile extracted from resume.") ∧
      (keptSentences
          "I build reliable distributed systems every single day after lunch! Skilled in compilers and verification work always" ≠ [] →
        generateSummary
          "I build reliable distributed systems every single day after lunch! Skilled in compilers and verification work always"
          = ⟨joinDotSpace ((dedupFirst (prioritizedSentences
              "I build reliable distributed systems every single day after lunch! Skilled in compilers and verification work always")).take 3)
              ++ ['.']⟩) :=
  generateSummary_spec
    "I build reliable distributed systems every single day after lunch! Skilled in compilers and verification work always"

end JobPortal
